import Mathlib

/-!
Shallow embedding of the `math-lang` repository: the generic speculative
parsing engine (`parser/src/parse.rs`, `parser/src/literal.rs`) and its
demonstration arithmetic grammar (`src/parsing.rs`, `src/ast.rs`,
`src/run.rs`, `src/analysis.rs`).

Machine integers are modelled as `Nat` with explicit reductions modulo
`2 ^ w` where the source performs a truncating cast.  Fallible operations
return `Except Diagnostic`.  The crate-internal modules `buffer.rs`
(Cursor / TokenBuffer / Entry), `token.rs` (the `Token` trait), the
`token!` macro, the lexer and the `diagnostics` crate are not present
under `src/`; those parts are modelled from the specification and are
marked as such in their doc comments.
-/

/-- Modelled from the spec: a `Span` from the external diagnostics crate is
an opaque comparable source range; `a.to b` merges two spans into their
enclosing range.  We model it as a half-open byte range. -/
structure Span where
  lo : Nat
  hi : Nat
deriving DecidableEq, Repr

/-- Modelled from the spec: span merge into the enclosing range. -/
def Span.to (a b : Span) : Span :=
  ⟨min a.lo b.lo, max a.hi b.hi⟩

/-- Modelled from the spec: `Span.empty(file)` used as the initial
`prev_span` of a fresh stream. -/
def Span.emptySpan : Span := ⟨0, 0⟩

/-- Modelled from the spec: diagnostic severity. -/
inductive Severity where
  | error
  | warning
deriving DecidableEq, Repr

/-- Modelled from the spec: a diagnostic value carries severity, an optional
numeric code, a message and a list of (severity, span, optional label)
annotations. -/
structure Diagnostic where
  severity : Severity
  code : Option Nat
  message : String
  labels : List (Severity × Span × Option String)
deriving DecidableEq, Repr

/-- Modelled from the spec: `Diagnostic::new`. -/
def Diagnostic.new (sev : Severity) (code : Option Nat) (msg : String) : Diagnostic :=
  ⟨sev, code, msg, []⟩

/-- Modelled from the spec: `Diagnostic::label` appends one annotation. -/
def Diagnostic.label (d : Diagnostic) (sev : Severity) (sp : Span) (l : Option String) : Diagnostic :=
  { d with labels := d.labels ++ [(sev, sp, l)] }

/-- `IntType` from `parser/src/literal.rs`. -/
inductive IntType where
  | u8 | u16 | u32 | u64 | u128
  | i8 | i16 | i32 | i64 | i128
  | unknown
deriving DecidableEq, Repr

/-- `FloatType` from `parser/src/literal.rs`. -/
inductive FloatType where
  | f32 | f64 | unknown
deriving DecidableEq, Repr

/-- `StringLiteral` from `parser/src/literal.rs`. -/
structure StringLiteral where
  span : Span
  text : String
deriving DecidableEq, Repr

/-- `CharLiteral` from `parser/src/literal.rs`. -/
structure CharLiteral where
  span : Span
  ch : Char
deriving DecidableEq, Repr

/-- `IntLiteral` from `parser/src/literal.rs`: `int` is the 128-bit unsigned
magnitude, modelled as a `Nat` (values produced by the lexer are below
`2 ^ 128`). -/
structure IntLiteral where
  span : Span
  int : Nat
  ty : IntType
deriving DecidableEq, Repr

/-- `FloatLiteral` from `parser/src/literal.rs`: `float` is the raw 64-bit
IEEE-754 bit pattern, stored as a `Nat`. -/
structure FloatLiteral where
  span : Span
  float : Nat
  ty : FloatType
deriving DecidableEq, Repr

/-- `Literal` from `parser/src/literal.rs`. -/
inductive Literal where
  | string (lit : StringLiteral)
  | char (lit : CharLiteral)
  | int (lit : IntLiteral)
  | float (lit : FloatLiteral)
deriving DecidableEq, Repr

/-- `Literal::span` (the `Spanned` impl in `parser/src/literal.rs`). -/
def Literal.span : Literal → Span
  | .string l => l.span
  | .char l => l.span
  | .int l => l.span
  | .float l => l.span

/-- Modelled from the spec: an `Entry` (from the missing `buffer.rs`) is one
lexed unit, either a literal or another token kind; the demonstration
grammar only uses single-character punctuation tokens, so the non-literal
kind is modelled as a punctuation character with its span. -/
inductive Entry where
  | literal (lit : Literal)
  | punct (ch : Char) (span : Span)
deriving DecidableEq, Repr

/-- Modelled from the spec: the span of one entry. -/
def Entry.span : Entry → Span
  | .literal l => l.span
  | .punct _ sp => sp

/-- Modelled from the spec: a `Cursor` (from the missing `buffer.rs`) is a
lightweight copyable position into an immutable token buffer, conceptually
an index; it never mutates the buffer. -/
structure Cursor where
  buf : List Entry
  pos : Nat
deriving DecidableEq, Repr

/-- Modelled from the spec: `TokenBuffer::begin`, the start position. -/
def Cursor.begin (buf : List Entry) : Cursor := ⟨buf, 0⟩

/-- Modelled from the spec: the entry at the current position, if any. -/
def Cursor.entryAt (c : Cursor) : Option Entry := c.buf.get? c.pos

/-- Modelled from the spec: `Cursor::bump`, the next position, saturating at
end-of-input. -/
def Cursor.bump (c : Cursor) : Cursor := ⟨c.buf, min (c.pos + 1) c.buf.length⟩

/-- Modelled from the spec: `Cursor::eof`. -/
def Cursor.eof (c : Cursor) : Bool := c.buf.length ≤ c.pos

/-- Modelled from the spec: `Cursor::literal` succeeds iff the entry at the
current position is a literal, returning it and the advanced cursor without
mutating anything. -/
def Cursor.literalAt (c : Cursor) : Option (Literal × Cursor) :=
  match c.entryAt with
  | some (.literal l) => some (l, c.bump)
  | _ => none

/-- Modelled from the spec: `Cursor::any` returns the entry at the current
position (of any kind) and the advanced cursor. -/
def Cursor.anyAt (c : Cursor) : Option (Entry × Cursor) :=
  match c.entryAt with
  | some e => some (e, c.bump)
  | none => none

/-- Modelled from the spec: `Cursor::span`, the span of the current
position; callers (`ParseBuffer::span`) guard the end-of-input case, where
we return the empty span. -/
def Cursor.span (c : Cursor) : Span :=
  match c.entryAt with
  | some e => e.span
  | none => Span.emptySpan

/-- Modelled from the spec: `Cursor::offset`, the number of single-entry
advances from `self` to `other`. -/
def Cursor.offset (c other : Cursor) : Nat := other.pos - c.pos

/-- The mutable state of a `ParseBuffer` from `parser/src/parse.rs`: the
current cursor (`cell`), the most recently consumed span (`prev_span`) and
the node-id counter.  The context payload `D` and the reporter are not part
of the position state and are omitted here; interior mutability is modelled
by explicit state passing. -/
structure PState where
  cur : Cursor
  prevSpan : Span
  nodeId : Nat
deriving DecidableEq, Repr

/-- `ParseBuffer::is_empty`. -/
def PState.isEmpty (s : PState) : Bool := s.cur.eof

/-- `ParseBuffer::span`: the `prev_span` at end-of-input, else the span of
the current cursor. -/
def PState.span (s : PState) : Span :=
  if s.isEmpty then s.prevSpan else s.cur.span

/-- `ParseBuffer::bump`. -/
def PState.bump (s : PState) : PState := { s with cur := s.cur.bump }

/-- The `StepCursor` handed to a `step` closure: the captured span and a
read-only view of the captured cursor. -/
structure StepCursor where
  span : Span
  cursor : Cursor
deriving DecidableEq, Repr

/-- `StepCursor::error`: a diagnostic at the captured span. -/
def StepCursor.error (sc : StepCursor) (msg : String) : Diagnostic :=
  (Diagnostic.new .error none msg).label .error sc.span none

/-- `ParseBuffer::step` from `parser/src/parse.rs`: invoke the closure with
the captured span and cursor; on failure return the diagnostic with the
state untouched; on success set `prev_span` to the pre-step span, then
install the returned cursor. -/
def PState.step (s : PState) (f : StepCursor → Except Diagnostic (α × Cursor)) :
    Except Diagnostic α × PState :=
  match f ⟨s.span, s.cur⟩ with
  | .error e => (.error e, s)
  | .ok (r, rest) => (.ok r, { s with prevSpan := s.span, cur := rest })

/-- `impl Parse for Option`: if `T::peek` holds at the current cursor,
delegate to `T::parse` wrapping the result in `some` (its error, if any,
propagates through the `?`); else return `none` without touching the
state.  The generic token type `T` is represented by its peek predicate
and its parse function; a parse function threads the stream state through
both outcomes, mirroring the in-place mutation of the Rust buffer. -/
def optionParse (peek : Cursor → Bool) (p : PState → Except Diagnostic α × PState)
    (s : PState) : Except Diagnostic (Option α) × PState :=
  if peek s.cur then
    match p s with
    | (.error e, s') => (.error e, s')
    | (.ok a, s') => (.ok (some a), s')
  else
    (.ok none, s)

/-- `impl Parse for Vec`: while the stream is nonempty and `T::parse`
succeeds on a fork (a copy of the state, whose mutations are discarded),
re-run `T::parse` on the real stream and accumulate; stop at the first
failed speculative attempt or at end-of-input.  The Rust `while` loop is
given a structural fuel parameter; with fuel at least the number of parsed
elements plus one the loop runs to its real exit. -/
def vecParse (p : PState → Except Diagnostic α × PState) :
    Nat → PState → Except Diagnostic (List α) × PState
  | 0, s => (.ok [], s)
  | fuel + 1, s =>
    if s.isEmpty then (.ok [], s)
    else
      match (p s).1 with
      | .error _ => (.ok [], s)
      | .ok _ =>
        match p s with
        | (.error e, s') => (.error e, s')
        | (.ok a, s') =>
          match vecParse p fuel s' with
          | (.error e, s'') => (.error e, s'')
          | (.ok as, s'') => (.ok (a :: as), s'')

/-- `impl Parse for Entry`: a single `step` consuming any entry, failing at
end-of-input. -/
def entryParse (s : PState) : Except Diagnostic Entry × PState :=
  s.step fun sc =>
    match sc.cursor.anyAt with
    | some (entry, rest) => .ok (entry, rest)
    | none => .error (sc.error "expected any token")

/-- `impl Parse for String`: a single `step` matching a string literal. -/
def stringParse (s : PState) : Except Diagnostic String × PState :=
  s.step fun sc =>
    match sc.cursor.literalAt with
    | some (.string lit, rest) => .ok (lit.text, rest)
    | _ => .error (sc.error "expected a string literal")

/-- `impl Parse for Literal` from `parser/src/literal.rs`. -/
def literalParse (s : PState) : Except Diagnostic Literal × PState :=
  s.step fun sc =>
    match sc.cursor.literalAt with
    | some (lit, rest) => .ok (lit, rest)
    | none => .error (sc.error "expected a string, character, integer or float")

/-- `impl Token for Literal` from `parser/src/literal.rs`: peek succeeds iff
the current entry is a literal. -/
def literalPeek (c : Cursor) : Bool := c.literalAt.isSome

/-- `impl Parse for IntLiteral` from `parser/src/literal.rs`: a single
`step` matching the `Int` literal variant, failing without advancing
otherwise. -/
def intLiteralParse (s : PState) : Except Diagnostic IntLiteral × PState :=
  s.step fun sc =>
    match sc.cursor.literalAt with
    | some (.int lit, rest) => .ok (lit, rest)
    | _ => .error (sc.error "expected an integer")

/-- `impl Parse for FloatLiteral` from `parser/src/literal.rs`. -/
def floatLiteralParse (s : PState) : Except Diagnostic FloatLiteral × PState :=
  s.step fun sc =>
    match sc.cursor.literalAt with
    | some (.float lit, rest) => .ok (lit, rest)
    | _ => .error (sc.error "expected a float")

/-- Modelled from the spec: the `token!` macro (not under `src/`) generates,
for a single-character punctuation token, a `Token` peek testing whether
the entry at the cursor is that punctuation character. -/
def punctPeek (c : Char) (cur : Cursor) : Bool :=
  match cur.entryAt with
  | some (.punct c' _) => c' = c
  | _ => false

/-- Modelled from the spec: the `token!` macro's `Parse` impl consumes the
matching punctuation entry via a single `step`, returning the token's span,
and fails without advancing on a mismatch. -/
def punctParse (c : Char) (s : PState) : Except Diagnostic Span × PState :=
  s.step fun sc =>
    match sc.cursor.anyAt with
    | some (.punct c' sp, rest) =>
      if c' = c then .ok (sp, rest) else .error (sc.error "expected punctuation")
    | _ => .error (sc.error "expected punctuation")

/-- `Op` from `src/ast.rs`. -/
inductive Op where
  | add | sub | mul | div
deriving DecidableEq, Repr

/-- `Ast` from `src/ast.rs`: integer literal values are `u64`, modelled as
`Nat` reduced modulo `2 ^ 64` where the source truncates. -/
inductive Ast where
  | int (span : Span) (val : Nat)
  | op (span : Span) (oper : Op) (left : Ast) (right : Ast)
  | group (span : Span) (expr : Ast)
deriving DecidableEq, Repr

/-- Erase all spans of a tree, for span-insensitive tree comparison
("equivalent to" in the specification). -/
def Ast.strip : Ast → Ast
  | .int _ v => .int Span.emptySpan v
  | .op _ o l r => .op Span.emptySpan o l.strip r.strip
  | .group _ e => .group Span.emptySpan e.strip

/-- Diagnostic returned when the structural fuel of the embedded
recursive-descent functions runs out; with fuel exceeding the recursion
depth of the source functions it is never produced. -/
def fuelDiag : Diagnostic := Diagnostic.new .error none "fuel exhausted"

mutual

/-- `Ast::parse_add_sub` from `src/parsing.rs`: parse a `mul_div` operand,
then loop while the stream is nonempty and the next token peeks as `+` or
`-`.  The `+` arm parses the right operand with `parse_mul_div`; the `-`
arm parses it with `parse_int` (exactly as the source does).  The Rust
`while` loop is the mutually recursive `addSubLoop`, with structural
fuel. -/
def parseAddSub : Nat → PState → Except Diagnostic Ast × PState
  | 0, s => (.error fuelDiag, s)
  | fuel + 1, s =>
    let start := s.span
    match parseMulDiv fuel s with
    | (.error e, s') => (.error e, s')
    | (.ok r, s') => addSubLoop fuel start r s'

/-- The `while` loop of `Ast::parse_add_sub`: `start` is the span captured
at entry, `result` the accumulated left-associative tree. -/
def addSubLoop : Nat → Span → Ast → PState → Except Diagnostic Ast × PState
  | 0, _, _, s => (.error fuelDiag, s)
  | fuel + 1, start, result, s =>
    if !s.isEmpty && (punctPeek '+' s.cur || punctPeek '-' s.cur) then
      match punctParse '+' s with
      | (.ok _, s1) =>
        match parseMulDiv fuel s1 with
        | (.error e, s2) => (.error e, s2)
        | (.ok right, s2) =>
          addSubLoop fuel start (.op (start.to s2.prevSpan) .add result right) s2
      | (.error _, s1) =>
        match punctParse '-' s1 with
        | (.error e, s2) => (.error e, s2)
        | (.ok _, s2) =>
          match parseInt fuel s2 with
          | (.error e, s3) => (.error e, s3)
          | (.ok right, s3) =>
            addSubLoop fuel start (.op (start.to s3.prevSpan) .sub result right) s3
    else (.ok result, s)

/-- `Ast::parse_mul_div` from `src/parsing.rs`: parse an integer/group
operand, then loop on `*` and `/` with `parse_int` right operands. -/
def parseMulDiv : Nat → PState → Except Diagnostic Ast × PState
  | 0, s => (.error fuelDiag, s)
  | fuel + 1, s =>
    let start := s.span
    match parseInt fuel s with
    | (.error e, s') => (.error e, s')
    | (.ok r, s') => mulDivLoop fuel start r s'

/-- The `while` loop of `Ast::parse_mul_div`. -/
def mulDivLoop : Nat → Span → Ast → PState → Except Diagnostic Ast × PState
  | 0, _, _, s => (.error fuelDiag, s)
  | fuel + 1, start, result, s =>
    if !s.isEmpty && (punctPeek '*' s.cur || punctPeek '/' s.cur) then
      match punctParse '*' s with
      | (.ok _, s1) =>
        match parseInt fuel s1 with
        | (.error e, s2) => (.error e, s2)
        | (.ok right, s2) =>
          mulDivLoop fuel start (.op (start.to s2.prevSpan) .mul result right) s2
      | (.error _, s1) =>
        match punctParse '/' s1 with
        | (.error e, s2) => (.error e, s2)
        | (.ok _, s2) =>
          match parseInt fuel s2 with
          | (.error e, s3) => (.error e, s3)
          | (.ok right, s3) =>
            mulDivLoop fuel start (.op (start.to s3.prevSpan) .div result right) s3
    else (.ok result, s)

/-- `Ast::parse_int` from `src/parsing.rs`: if a `(` token parses, parse a
full `add_sub` expression and a closing `)`, yielding a `Group`; otherwise
parse an `IntLiteral`, storing its 128-bit magnitude truncated to `u64`
(the `as u64` cast, modelled as reduction modulo `2 ^ 64`). -/
def parseInt : Nat → PState → Except Diagnostic Ast × PState
  | 0, s => (.error fuelDiag, s)
  | fuel + 1, s =>
    match punctParse '(' s with
    | (.ok lsp, s1) =>
      match parseAddSub fuel s1 with
      | (.error e, s2) => (.error e, s2)
      | (.ok sub, s2) =>
        match punctParse ')' s2 with
        | (.error e, s3) => (.error e, s3)
        | (.ok _, s3) => (.ok (.group (lsp.to s3.prevSpan) sub), s3)
    | (.error _, s1) =>
      match intLiteralParse s1 with
      | (.error e, s2) => (.error e, s2)
      | (.ok lit, s2) => (.ok (.int lit.span (lit.int % 2 ^ 64)), s2)

end

/-- Modelled from the spec: decimal value of a digit character. -/
def digitVal (c : Char) : Nat := c.toNat - 48

/-- Modelled from the spec: decimal value of a digit run. -/
def natOfDigits (ds : List Char) : Nat := ds.foldl (fun a c => 10 * a + digitVal c) 0

/-- Modelled from the spec: the external lexer (out of core scope, not under
`src/`) turns source text into entries — digit runs become integer literals
with no suffix, spaces are skipped, and any other character becomes a
single-character punctuation entry; spans are byte ranges.  Structural fuel
bounds the number of steps (one per call suffices since every call consumes
at least one character). -/
def lexFrom : Nat → Nat → List Char → List Entry
  | 0, _, _ => []
  | _ + 1, _, [] => []
  | fuel + 1, pos, c :: cs =>
    if c = ' ' then lexFrom fuel (pos + 1) cs
    else if c.isDigit then
      let ds := cs.takeWhile Char.isDigit
      let n := 1 + ds.length
      .literal (.int ⟨⟨pos, pos + n⟩, natOfDigits (c :: ds), .unknown⟩) ::
        lexFrom fuel (pos + n) (cs.drop ds.length)
    else .punct c ⟨pos, pos + 1⟩ :: lexFrom fuel (pos + 1) cs

/-- Modelled from the spec: lex a whole source string. -/
def lex (src : String) : List Entry := lexFrom (src.length + 1) 0 src.toList

/-- The `parse` entry point of `src/parsing.rs`: lex the source, build a
fresh stream at the start of the buffer with an empty `prev_span`, and run
`Ast::parse_add_sub`; the result and the final stream state are returned
(the source does not require the buffer to be exhausted).  Fuel is a bound
on the recursion depth, ample for any input of the given length. -/
def parseTop (src : String) : Except Diagnostic Ast × PState :=
  let toks := lex src
  parseAddSub (4 * toks.length + 8) ⟨Cursor.begin toks, Span.emptySpan, 0⟩

/-- `run` from `src/run.rs`, the `u64` interpreter: results are reduced
modulo `2 ^ 64`; subtraction is modelled as wrapping, division as natural
division (the source panics on `u64` overflow in debug builds and on
division by zero, conditions no theorem below relies on). -/
def run : Ast → Nat
  | .int _ v => v
  | .op _ o l r =>
    let lv := run l
    let rv := run r
    match o with
    | .add => (lv + rv) % 2 ^ 64
    | .sub => (lv + 2 ^ 64 - rv) % 2 ^ 64
    | .mul => (lv * rv) % 2 ^ 64
    | .div => lv / rv
  | .group _ e => run e

/-- The divide-by-zero diagnostic built in `analyze_op`
(`src/analysis.rs`), anchored at the right-hand literal's span. -/
def divZeroDiag (sp : Span) : Diagnostic :=
  (Diagnostic.new .error none "Cannot divide by 0").label .error sp none

/-- `analyze_ast` / `analyze_op` from `src/analysis.rs`, with the reporter
modelled as the ordered list of reported diagnostics: visit left then right
operands, then flag a `Div` whose right child is directly an integer
literal node with value `0`. -/
def analyzeAst : Ast → List Diagnostic
  | .int _ _ => []
  | .op _ o l r =>
    analyzeAst l ++ analyzeAst r ++
      (if o = .div then
        match r with
        | .int sp 0 => [divZeroDiag sp]
        | _ => []
      else [])
  | .group _ e => analyzeAst e

/-- A heap of `Cell`/`RefCell` slots, modelling the interior mutability of
`ParseBuffer`: each stream's `cell` (cursor), `prev_span` and `node_id`
live at addresses in this store, so that distinct streams over the same
immutable buffer can alias or own distinct state, exactly as in the Rust
source where `fork` clones the cells into fresh memory.  `next` is the
allocation bound: addresses below it are in use. -/
structure Store where
  cursors : Nat → Cursor
  spans : Nat → Span
  nodes : Nat → Nat
  next : Nat

/-- The cell addresses owned by one `ParseBuffer`. -/
structure PBuf where
  cellA : Nat
  prevA : Nat
  nodeA : Nat
deriving DecidableEq, Repr

/-- A buffer is well formed in a store when its addresses are allocated. -/
def Store.wf (σ : Store) (b : PBuf) : Prop :=
  b.cellA < σ.next ∧ b.prevA < σ.next ∧ b.nodeA < σ.next

/-- Read a stream's current cursor (`ParseBuffer::cursor`). -/
def Store.readCur (σ : Store) (b : PBuf) : Cursor := σ.cursors b.cellA

/-- Read a stream's `prev_span` (`ParseBuffer::prev_span`). -/
def Store.readPrev (σ : Store) (b : PBuf) : Span := σ.spans b.prevA

/-- Read a stream's node-id counter. -/
def Store.readNode (σ : Store) (b : PBuf) : Nat := σ.nodes b.nodeA

/-- Write one cursor cell. -/
def Store.setCur (σ : Store) (a : Nat) (c : Cursor) : Store :=
  { σ with cursors := fun x => if x = a then c else σ.cursors x }

/-- Write one span cell. -/
def Store.setSpan (σ : Store) (a : Nat) (sp : Span) : Store :=
  { σ with spans := fun x => if x = a then sp else σ.spans x }

/-- Write one node-id cell. -/
def Store.setNode (σ : Store) (a : Nat) (n : Nat) : Store :=
  { σ with nodes := fun x => if x = a then n else σ.nodes x }

/-- `ParseBuffer::is_empty` over the store. -/
def Store.isEmptyB (σ : Store) (b : PBuf) : Bool := (σ.readCur b).eof

/-- `ParseBuffer::span` over the store. -/
def Store.spanB (σ : Store) (b : PBuf) : Span :=
  if σ.isEmptyB b then σ.readPrev b else (σ.readCur b).span

/-- `ParseBuffer::fork` over the store: allocate three fresh cells holding
copies of the parent's cursor, `prev_span` and node-id; the new stream
shares only the immutable underlying buffer (inside `Cursor`) and the
reporter. -/
def Store.fork (σ : Store) (b : PBuf) : Store × PBuf :=
  let child : PBuf := ⟨σ.next, σ.next + 1, σ.next + 2⟩
  let σ' := ((σ.setCur child.cellA (σ.readCur b)).setSpan child.prevA
      (σ.readPrev b)).setNode child.nodeA (σ.readNode b)
  ({ σ' with next := σ.next + 3 }, child)

/-- `ParseBuffer::step` over the store, mutating only the addressed
stream's own cells. -/
def Store.stepB (σ : Store) (b : PBuf)
    (f : StepCursor → Except Diagnostic (α × Cursor)) : Except Diagnostic α × Store :=
  match f ⟨σ.spanB b, σ.readCur b⟩ with
  | .error e => (.error e, σ)
  | .ok (r, rest) => (.ok r, (σ.setSpan b.prevA (σ.spanB b)).setCur b.cellA rest)

/-- `ParseBuffer::bump` over the store. -/
def Store.bumpB (σ : Store) (b : PBuf) : Store :=
  σ.setCur b.cellA (σ.readCur b).bump

/-- The free `skip` function of `parser/src/parse.rs`: one `step` that
consumes any entry if one remains (returning `true`), otherwise succeeds
with `false` at the unchanged cursor; the `unwrap_or_default` collapses an
(impossible) error into `false`. -/
def Store.skipB (σ : Store) (b : PBuf) : Bool × Store :=
  match σ.stepB b (fun sc =>
      match sc.cursor.anyAt with
      | some (_, rest) => .ok (true, rest)
      | none => .ok (false, sc.cursor)) with
  | (.ok r, σ') => (r, σ')
  | (.error _, σ') => (false, σ')

/-- Modelled from the spec: the `Token` contract's peek (the `token.rs`
trait is not under `src/`) tests whether the entry at the position is an
instance of the token's kind, hence is `false` at end-of-input; a token
type is represented by its predicate on one entry. -/
def tokenPeek (pred : Entry → Bool) (c : Cursor) : Bool :=
  match c.entryAt with
  | some e => pred e
  | none => false

/-- `ParseBuffer::peek` over the store: evaluate the token's peek at the
current cursor; a pure read, the store is returned unchanged. -/
def Store.peekB (σ : Store) (b : PBuf) (pred : Entry → Bool) : Bool × Store :=
  (tokenPeek pred (σ.readCur b), σ)

/-- `ParseBuffer::peek2` over the store: fork, skip one arbitrary entry on
the fork, and (short-circuiting on a failed skip) evaluate the peek on the
fork. -/
def Store.peek2B (σ : Store) (b : PBuf) (pred : Entry → Bool) : Bool × Store :=
  let fk := σ.fork b
  let sk := fk.1.skipB fk.2
  if sk.1 then (tokenPeek pred (sk.2.readCur fk.2), sk.2) else (false, sk.2)

/-- `ParseBuffer::peek3` over the store: fork and skip twice, with the
source's `&&` short-circuiting between the skips. -/
def Store.peek3B (σ : Store) (b : PBuf) (pred : Entry → Bool) : Bool × Store :=
  let fk := σ.fork b
  let sk1 := fk.1.skipB fk.2
  if sk1.1 then
    let sk2 := sk1.2.skipB fk.2
    if sk2.1 then (tokenPeek pred (sk2.2.readCur fk.2), sk2.2) else (false, sk2.2)
  else (false, sk1.2)

/-- `ParseBuffer::peek4` over the store: fork and skip three times with
short-circuiting. -/
def Store.peek4B (σ : Store) (b : PBuf) (pred : Entry → Bool) : Bool × Store :=
  let fk := σ.fork b
  let sk1 := fk.1.skipB fk.2
  if sk1.1 then
    let sk2 := sk1.2.skipB fk.2
    if sk2.1 then
      let sk3 := sk2.2.skipB fk.2
      if sk3.1 then (tokenPeek pred (sk3.2.readCur fk.2), sk3.2) else (false, sk3.2)
    else (false, sk2.2)
  else (false, sk1.2)

/-- One engine operation applied to a designated stream: the three state
mutations `ParseBuffer` ever performs are a `bump` of the cursor cell, a
`step` with an arbitrary closure, and an update of the node-id counter. -/
inductive EngineOp where
  | bump
  | stepOp (f : StepCursor → Except Diagnostic (Unit × Cursor))
  | setNodeId (n : Nat)

/-- Apply one engine operation to stream `b` in the store. -/
def applyOp (σ : Store) (b : PBuf) : EngineOp → Store
  | .bump => σ.bumpB b
  | .stepOp f => (σ.stepB b f).2
  | .setNodeId n => σ.setNode b.nodeA n

/-- Apply a sequence of engine operations to stream `b`. -/
def applyOps (σ : Store) (b : PBuf) : List EngineOp → Store
  | [] => σ
  | op :: ops => applyOps (applyOp σ b op) b ops

/-- A maximal-repetition scenario for `Vec::parse`: from state `s`, the
element parse `p` succeeds in sequence on states that are each nonempty,
producing the listed elements and ending in state `s₂`.  This is the
"sequence of N valid `T` encodings" of the specification. -/
inductive ParsesChain (p : PState → Except Diagnostic α × PState) :
    PState → List α → PState → Prop
  | nil (s : PState) : ParsesChain p s [] s
  | cons {s s₁ s₂ : PState} {a : α} {as : List α} :
      s.isEmpty = false →
      p s = (.ok a, s₁) →
      ParsesChain p s₁ as s₂ →
      ParsesChain p s (a :: as) s₂

/-- The subtree relation on `Ast` (reflexive, through operator operands and
group bodies), used to state which trees contain a directly flagged
division. -/
inductive SubtreeOf : Ast → Ast → Prop
  | refl (a : Ast) : SubtreeOf a a
  | opLeft {t l : Ast} (sp : Span) (o : Op) (r : Ast) :
      SubtreeOf t l → SubtreeOf t (.op sp o l r)
  | opRight {t r : Ast} (sp : Span) (o : Op) (l : Ast) :
      SubtreeOf t r → SubtreeOf t (.op sp o l r)
  | group {t e : Ast} (sp : Span) :
      SubtreeOf t e → SubtreeOf t (.group sp e)

/-- An integer-literal entry covering one source byte, for concrete test
inputs. -/
def intEntry (lo n : Nat) : Entry := .literal (.int ⟨⟨lo, lo + 1⟩, n, .unknown⟩)

/-- A concrete two-literal stream state. -/
def sampleState : PState :=
  ⟨Cursor.begin [intEntry 0 7, intEntry 2 8], Span.emptySpan, 0⟩

/-- A concrete store whose first three addresses form one allocated
stream. -/
def sampleStore : Store :=
  ⟨fun _ => Cursor.begin [intEntry 0 7, intEntry 2 8],
   fun _ => Span.emptySpan, fun _ => 0, 3⟩

/-- The stream owning the first three addresses of `sampleStore`. -/
def samplePB : PBuf := ⟨0, 1, 2⟩

/-- A diagnostic used by concrete always-failing closures. -/
def cexDiag : Diagnostic := Diagnostic.new .error none "always fails"

theorem applyOp_cursors_frame (σ : Store) (b : PBuf) (op : EngineOp) (a : Nat)
    (h : a ≠ b.cellA) : (applyOp σ b op).cursors a = σ.cursors a := by
  cases op with
  | bump => simp [applyOp, Store.bumpB, Store.setCur, h]
  | stepOp f =>
    simp only [applyOp, Store.stepB]
    rcases hf : f ⟨σ.spanB b, σ.readCur b⟩ with e | ⟨r, rest⟩
    · simp [hf]
    · simp [hf, Store.setCur, Store.setSpan, h]
  | setNodeId n => simp [applyOp, Store.setNode]

theorem applyOp_spans_frame (σ : Store) (b : PBuf) (op : EngineOp) (a : Nat)
    (h : a ≠ b.prevA) : (applyOp σ b op).spans a = σ.spans a := by
  cases op with
  | bump => simp [applyOp, Store.bumpB, Store.setCur]
  | stepOp f =>
    simp only [applyOp, Store.stepB]
    rcases hf : f ⟨σ.spanB b, σ.readCur b⟩ with e | ⟨r, rest⟩
    · simp [hf]
    · simp [hf, Store.setCur, Store.setSpan, h]
  | setNodeId n => simp [applyOp, Store.setNode]

theorem applyOp_nodes_frame (σ : Store) (b : PBuf) (op : EngineOp) (a : Nat)
    (h : a ≠ b.nodeA) : (applyOp σ b op).nodes a = σ.nodes a := by
  cases op with
  | bump => simp [applyOp, Store.bumpB, Store.setCur]
  | stepOp f =>
    simp only [applyOp, Store.stepB]
    rcases hf : f ⟨σ.spanB b, σ.readCur b⟩ with e | ⟨r, rest⟩
    · simp [hf]
    · simp [hf, Store.setCur, Store.setSpan]
  | setNodeId n => simp [applyOp, Store.setNode, h]

theorem applyOps_frame (b : PBuf) (ops : List EngineOp) (a₁ a₂ a₃ : Nat)
    (h₁ : a₁ ≠ b.cellA) (h₂ : a₂ ≠ b.prevA) (h₃ : a₃ ≠ b.nodeA) :
    ∀ σ : Store, (applyOps σ b ops).cursors a₁ = σ.cursors a₁ ∧
      (applyOps σ b ops).spans a₂ = σ.spans a₂ ∧
      (applyOps σ b ops).nodes a₃ = σ.nodes a₃ := by
  induction ops with
  | nil => intro σ; exact ⟨rfl, rfl, rfl⟩
  | cons op ops ih =>
    intro σ
    have hc := applyOp_cursors_frame σ b op a₁ h₁
    have hs := applyOp_spans_frame σ b op a₂ h₂
    have hn := applyOp_nodes_frame σ b op a₃ h₃
    rcases ih (applyOp σ b op) with ⟨ic, is, inn⟩
    exact ⟨by rw [applyOps, ic, hc], by rw [applyOps, is, hs], by rw [applyOps, inn, hn]⟩

/-- C1.  Step atomicity: for every stream state and every closure, if the
closure passed to `ParseBuffer::step` returns a failure, the whole state —
in particular `span()` and `prev_span()` — is unchanged by the call. -/
theorem step_failure_atomic (s : PState) (f : StepCursor → Except Diagnostic (α × Cursor))
    (e : Diagnostic) (h : (s.step f).1 = .error e) :
    (s.step f).2.span = s.span ∧ (s.step f).2.prevSpan = s.prevSpan ∧ (s.step f).2 = s := by
  unfold PState.step at *
  rcases hf : f ⟨s.span, s.cur⟩ with e' | ⟨r, rest⟩ <;> simp [hf] at h ⊢

/-- Witness for C1 at a concrete state and always-failing closure. -/
theorem step_failure_atomic_witness :
    ((sampleState.step fun sc => (.error (sc.error "boom") :
        Except Diagnostic (Unit × Cursor))).1 = .error
          ((Diagnostic.new .error none "boom").label .error ⟨0, 1⟩ none)) ∧
    (sampleState.step fun sc => (.error (sc.error "boom") :
        Except Diagnostic (Unit × Cursor))).2 = sampleState :=
  ⟨rfl, (step_failure_atomic sampleState
    (fun sc => (.error (sc.error "boom") : Except Diagnostic (Unit × Cursor)))
    ((Diagnostic.new .error none "boom").label .error ⟨0, 1⟩ none) rfl).2.2⟩

/-- C7.  On a successful step, `prev_span` becomes the pre-step span (the
value of `span()` before the call) and the cursor is advanced to the cursor
returned by the closure, in that dependency order: the recorded span is
computed from the pre-step position. -/
theorem step_success_installs (s : PState) (f : StepCursor → Except Diagnostic (α × Cursor))
    (r : α) (rest : Cursor) (h : f ⟨s.span, s.cur⟩ = .ok (r, rest)) :
    (s.step f).1 = .ok r ∧ (s.step f).2.prevSpan = s.span ∧ (s.step f).2.cur = rest := by
  unfold PState.step
  simp [h]

/-- Witness for C7: consuming the first entry of a concrete stream records
the pre-step span and installs the returned cursor. -/
theorem step_success_installs_witness :
    ((sampleState.step fun sc => (.ok ((), sc.cursor.bump) :
        Except Diagnostic (Unit × Cursor))).1 = .ok ()) ∧
    (sampleState.step fun sc => (.ok ((), sc.cursor.bump) :
        Except Diagnostic (Unit × Cursor))).2.prevSpan = sampleState.span ∧
    (sampleState.step fun sc => (.ok ((), sc.cursor.bump) :
        Except Diagnostic (Unit × Cursor))).2.cur = sampleState.cur.bump :=
  step_success_installs sampleState _ () sampleState.cur.bump rfl

/-- C3 counterexample.  The claim "`Option<T>::parse` never returns an
error" is false as stated: the implementation is
`Ok(Some(T::parse(input)?))`, so for a token type whose peek succeeds but
whose parse fails (both legal under the `Token` and `Parse` contracts),
the element's error propagates.  Concretely, with `T`'s peek the stock
literal peek and `T`'s parse an always-failing function, on a stream whose
first entry is a literal the call returns an error. -/
theorem optionParse_can_fail :
    optionParse literalPeek
      (fun s => ((.error cexDiag : Except Diagnostic IntLiteral), s)) sampleState =
      (.error cexDiag, sampleState) := rfl

/-- C3 (amended).  If `T::peek` fails at the current position,
`Option<T>::parse` returns `None` without consuming; if `T::peek` succeeds
and `T::parse` succeeds whenever `T::peek` does (as every token type of
the repository satisfies), it returns `Some` of the parsed element — in
particular it never fails for such `T`. -/
theorem optionParse_peek_guarded (peek : Cursor → Bool)
    (p : PState → Except Diagnostic α × PState) (s : PState)
    (hcoh : peek s.cur = true → ∃ a s', p s = (.ok a, s')) :
    (peek s.cur = false → optionParse peek p s = (.ok none, s)) ∧
    (peek s.cur = true → ∃ a s', p s = (.ok a, s') ∧
      optionParse peek p s = (.ok (some a), s')) := by
  constructor
  · intro h
    simp [optionParse, h]
  · intro h
    rcases hcoh h with ⟨a, s', hp⟩
    exact ⟨a, s', hp, by simp [optionParse, h, hp]⟩

/-- Witness for C3's amended theorem at the stock integer-literal token on
a concrete stream. -/
theorem optionParse_peek_guarded_witness :
    (literalPeek sampleState.cur = false →
      optionParse literalPeek intLiteralParse sampleState = (.ok none, sampleState)) ∧
    (literalPeek sampleState.cur = true → ∃ a s',
      intLiteralParse sampleState = (.ok a, s') ∧
      optionParse literalPeek intLiteralParse sampleState = (.ok (some a), s')) :=
  optionParse_peek_guarded literalPeek intLiteralParse sampleState (fun _ => ⟨_, _, rfl⟩)

/-- C9.  When `parse_int` takes its literal branch (the current entry is an
integer literal), the stored `Ast::Int` value is the literal's 128-bit
magnitude reduced modulo `2 ^ 64` (the `as u64` cast truncates), and for a
magnitude of at least `2 ^ 64` the stored value differs from the
magnitude. -/
theorem parseInt_truncates (fuel : Nat) (s : PState) (sp : Span) (n : Nat) (ty : IntType)
    (hcur : s.cur.entryAt = some (.literal (.int ⟨sp, n, ty⟩))) :
    (parseInt (fuel + 1) s).1 = .ok (.int sp (n % 2 ^ 64)) ∧
    (2 ^ 64 ≤ n → n % 2 ^ 64 ≠ n) := by
  constructor
  · simp [parseInt, punctParse, intLiteralParse, PState.step, Cursor.anyAt,
      Cursor.literalAt, hcur]
  · intro h
    have hlt : n % 2 ^ 64 < 2 ^ 64 := Nat.mod_lt _ (by positivity)
    omega

/-- Witness for C9 at the literal `2 ^ 64 + 5`: the stored value is `5`,
which differs from the magnitude. -/
theorem parseInt_truncates_witness :
    ((⟨Cursor.begin [intEntry 0 (2 ^ 64 + 5)], Span.emptySpan, 0⟩ :
        PState).cur.entryAt =
      some (.literal (.int ⟨⟨0, 1⟩, 2 ^ 64 + 5, .unknown⟩))) ∧
    ((parseInt 1 ⟨Cursor.begin [intEntry 0 (2 ^ 64 + 5)], Span.emptySpan, 0⟩).1 =
      .ok (.int ⟨0, 1⟩ ((2 ^ 64 + 5) % 2 ^ 64)) ∧
    (2 ^ 64 ≤ 2 ^ 64 + 5 → (2 ^ 64 + 5) % 2 ^ 64 ≠ 2 ^ 64 + 5)) :=
  ⟨rfl, parseInt_truncates 0 ⟨Cursor.begin [intEntry 0 (2 ^ 64 + 5)], Span.emptySpan, 0⟩
    ⟨0, 1⟩ (2 ^ 64 + 5) .unknown rfl⟩

/-- C2.  Evaluation of the code at the failing input "1 - 2 * 3": because
the `-` arm of `parse_add_sub` parses its right operand with `parse_int`
instead of `parse_mul_div` (unlike the symmetric `+` arm), the parse
returns `Sub(1, 2)` and leaves the stream at the unconsumed `*` — not the
claimed precedence-respecting `Sub(1, Mul(2, 3))`. -/
theorem subBranch_breaks_precedence :
    (parseTop "1 - 2 * 3").1.map Ast.strip =
      .ok (.op Span.emptySpan .sub (.int Span.emptySpan 1) (.int Span.emptySpan 2)) ∧
    (parseTop "1 - 2 * 3").2.isEmpty = false ∧
    (.op Span.emptySpan .sub (.int Span.emptySpan 1) (.int Span.emptySpan 2) : Ast) ≠
      .op Span.emptySpan .sub (.int Span.emptySpan 1)
        (.op Span.emptySpan .mul (.int Span.emptySpan 2) (.int Span.emptySpan 3)) :=
  ⟨rfl, rfl, by decide⟩

/-- C8.  End-to-end: the grammar input "2 + 3 * (4 - 1)" parses
successfully to a tree equivalent (up to spans) to
`Add(2, Mul(3, Group(Sub(4, 1))))`, and running the interpreter on the
parsed tree yields `11`. -/
theorem endToEnd_example :
    (parseTop "2 + 3 * (4 - 1)").1.map Ast.strip =
      .ok (.op Span.emptySpan .add (.int Span.emptySpan 2)
        (.op Span.emptySpan .mul (.int Span.emptySpan 3)
          (.group Span.emptySpan
            (.op Span.emptySpan .sub (.int Span.emptySpan 4) (.int Span.emptySpan 1))))) ∧
    (parseTop "2 + 3 * (4 - 1)").1.map run = .ok 11 :=
  ⟨rfl, rfl⟩

/-- C4.  `Vec<T>::parse` consumes exactly the maximal prefix of valid
elements: if from `s` the element parse succeeds `N` times in sequence
(ending at `s'`) and then stops — by end-of-input or because the next
speculative attempt fails — then with sufficient fuel the repetition
returns `Ok` with exactly those `N` elements and leaves the stream at
`s'`, the first unconsumed position; the failed trailing fork leaks no
consumption into the result state. -/
theorem vecParse_maximal (p : PState → Except Diagnostic α × PState)
    {s s' : PState} {as : List α} (fuel : Nat)
    (hchain : ParsesChain p s as s')
    (hstop : s'.isEmpty = true ∨ ∃ e σ, p s' = (.error e, σ))
    (hfuel : as.length + 1 ≤ fuel) :
    vecParse p fuel s = (.ok as, s') := by
  induction hchain generalizing fuel with
  | nil s₀ =>
    obtain ⟨f, rfl⟩ : ∃ f, fuel = f + 1 := ⟨fuel - 1, by omega⟩
    rcases hstop with he | ⟨e, σ, hp⟩
    · simp [vecParse, he]
    · by_cases hemp : s₀.isEmpty
      · simp [vecParse, hemp]
      · simp [vecParse, hemp, hp]
  | cons hne hp _ ih =>
    obtain ⟨f, rfl⟩ : ∃ f, fuel = f + 1 := ⟨fuel - 1, by omega⟩
    have ih' := ih f hstop (by simp only [List.length_cons] at hfuel; omega)
    simp [vecParse, hne, hp, ih']

/-- Witness for C4: a buffer of exactly two integer literals; the
repetition parses both and stops at end-of-input. -/
theorem vecParse_maximal_witness :
    (ParsesChain intLiteralParse sampleState
        [⟨⟨0, 1⟩, 7, .unknown⟩, ⟨⟨2, 3⟩, 8, .unknown⟩]
        ⟨⟨[intEntry 0 7, intEntry 2 8], 2⟩, ⟨2, 3⟩, 0⟩ ∧
      (⟨⟨[intEntry 0 7, intEntry 2 8], 2⟩, ⟨2, 3⟩, 0⟩ : PState).isEmpty = true ∧
      2 + 1 ≤ 3) ∧
    vecParse intLiteralParse 3 sampleState =
      (.ok [⟨⟨0, 1⟩, 7, .unknown⟩, ⟨⟨2, 3⟩, 8, .unknown⟩],
        ⟨⟨[intEntry 0 7, intEntry 2 8], 2⟩, ⟨2, 3⟩, 0⟩) := by
  refine ⟨⟨?_, rfl, by omega⟩, ?_⟩
  · exact .cons rfl rfl (.cons rfl rfl (.nil _))
  · exact vecParse_maximal intLiteralParse 3
      (.cons rfl rfl (.cons rfl rfl (.nil _))) (Or.inl rfl) (by decide)

/-- C5.  `fork()` produces an independent stream: the fork's cursor,
`prev_span` and node-id cells are freshly allocated copies of the parent's
(sharing only the immutable buffer inside the cursor), and no sequence of
engine operations applied to the fork changes the parent's position,
`prev_span()` or `span()` — in particular a fork followed only by reads
(the empty operation sequence) leaves them unchanged. -/
theorem fork_read_only (σ : Store) (parent : PBuf) (ops : List EngineOp)
    (h : σ.wf parent) :
    ((σ.fork parent).1.readCur (σ.fork parent).2 = σ.readCur parent ∧
      (σ.fork parent).1.readPrev (σ.fork parent).2 = σ.readPrev parent ∧
      (σ.fork parent).1.readNode (σ.fork parent).2 = σ.readNode parent) ∧
    ((applyOps (σ.fork parent).1 (σ.fork parent).2 ops).readCur parent =
        σ.readCur parent ∧
      (applyOps (σ.fork parent).1 (σ.fork parent).2 ops).readPrev parent =
        σ.readPrev parent ∧
      (applyOps (σ.fork parent).1 (σ.fork parent).2 ops).spanB parent =
        σ.spanB parent) := by
  obtain ⟨h1, h2, h3⟩ := h
  have hcopy : (σ.fork parent).1.readCur (σ.fork parent).2 = σ.readCur parent ∧
      (σ.fork parent).1.readPrev (σ.fork parent).2 = σ.readPrev parent ∧
      (σ.fork parent).1.readNode (σ.fork parent).2 = σ.readNode parent := by
    refine ⟨?_, ?_, ?_⟩ <;>
      simp [Store.fork, Store.readCur, Store.readPrev, Store.readNode,
        Store.setCur, Store.setSpan, Store.setNode]
  have hpar : (σ.fork parent).1.cursors parent.cellA = σ.cursors parent.cellA ∧
      (σ.fork parent).1.spans parent.prevA = σ.spans parent.prevA := by
    constructor <;>
      simp [Store.fork, Store.setCur, Store.setSpan, Store.setNode] <;> omega
  have hfr := applyOps_frame (σ.fork parent).2 ops parent.cellA parent.prevA parent.nodeA
    (by simp [Store.fork]; omega) (by simp [Store.fork]; omega)
    (by simp [Store.fork]; omega) (σ.fork parent).1
  have hc : (applyOps (σ.fork parent).1 (σ.fork parent).2 ops).readCur parent =
      σ.readCur parent := by
    rw [Store.readCur, hfr.1, hpar.1, Store.readCur]
  have hs : (applyOps (σ.fork parent).1 (σ.fork parent).2 ops).readPrev parent =
      σ.readPrev parent := by
    rw [Store.readPrev, hfr.2.1, hpar.2, Store.readPrev]
  refine ⟨hcopy, hc, hs, ?_⟩
  rw [Store.spanB, Store.spanB, Store.isEmptyB, Store.isEmptyB, hc, hs]

/-- Witness for C5: a concrete allocated stream; bumping the fork and
overwriting the fork's node-id leaves the parent's `span()` unchanged. -/
theorem fork_read_only_witness :
    sampleStore.wf samplePB ∧
    (applyOps (sampleStore.fork samplePB).1 (sampleStore.fork samplePB).2
        [.bump, .setNodeId 5]).spanB samplePB = sampleStore.spanB samplePB :=
  ⟨⟨by decide, by decide, by decide⟩,
    (fork_read_only sampleStore samplePB [.bump, .setNodeId 5]
      ⟨by decide, by decide, by decide⟩).2.2.2⟩

theorem Cursor.anyAt_none_iff (c : Cursor) : c.anyAt = none ↔ c.eof = true := by
  unfold Cursor.anyAt Cursor.entryAt Cursor.eof
  rcases hg : c.buf.get? c.pos with _ | e
  · simp [List.get?_eq_none.mp hg]
  · have := List.get?_eq_some.mp hg
    simp [Nat.not_le.mpr this.1]

theorem Cursor.anyAt_some_parts (c : Cursor) (e : Entry) (r : Cursor)
    (h : c.anyAt = some (e, r)) : r = c.bump ∧ c.eof = false := by
  unfold Cursor.anyAt Cursor.entryAt at h
  rcases hg : c.buf.get? c.pos with _ | e'
  · rw [hg] at h; exact absurd h (by simp)
  · rw [hg] at h
    have hlt := (List.get?_eq_some.mp hg).1
    have h' : e' = e ∧ c.bump = r := by simpa using h
    exact ⟨h'.2.symm, by simp [Cursor.eof, Nat.not_le.mpr hlt]⟩

theorem skipB_result (σ : Store) (b : PBuf) :
    (σ.skipB b).1 = !(σ.readCur b).eof ∧
    (σ.skipB b).2.readCur b =
      (if (σ.readCur b).eof then σ.readCur b else (σ.readCur b).bump) := by
  unfold Store.skipB Store.stepB
  simp only [Store.readCur]
  rcases hAt : (σ.cursors b.cellA).anyAt with _ | ⟨e, rest⟩
  · have he := (Cursor.anyAt_none_iff _).mp hAt
    simp [hAt, he, Store.setCur, Store.setSpan]
  · obtain ⟨hr, he⟩ := Cursor.anyAt_some_parts _ _ _ hAt
    simp [hAt, he, hr, Store.setCur, Store.setSpan]

theorem skipB_frame (σ : Store) (b : PBuf) (a₁ a₂ : Nat)
    (h₁ : a₁ ≠ b.cellA) (h₂ : a₂ ≠ b.prevA) :
    (σ.skipB b).2.cursors a₁ = σ.cursors a₁ ∧ (σ.skipB b).2.spans a₂ = σ.spans a₂ := by
  unfold Store.skipB Store.stepB
  simp only [Store.readCur]
  rcases hAt : (σ.cursors b.cellA).anyAt with _ | ⟨e, rest⟩ <;>
    simp [hAt, Store.setCur, Store.setSpan, h₁, h₂]

theorem fork_child_cur (σ : Store) (b : PBuf) :
    (σ.fork b).1.readCur (σ.fork b).2 = σ.readCur b := by
  simp [Store.fork, Store.readCur, Store.setCur, Store.setSpan, Store.setNode]

theorem fork_frame (σ : Store) (b : PBuf) (a₁ a₂ : Nat)
    (h₁ : a₁ < σ.next) (h₂ : a₂ < σ.next) :
    (σ.fork b).1.cursors a₁ = σ.cursors a₁ ∧ (σ.fork b).1.spans a₂ = σ.spans a₂ := by
  constructor <;>
    simp [Store.fork, Store.setCur, Store.setSpan, Store.setNode] <;> omega

theorem skipB_closed (σ' : Store) (c : PBuf) (buf : List Entry) (p : Nat)
    (hc : σ'.readCur c = ⟨buf, p⟩) :
    (σ'.skipB c).1 = decide (p < buf.length) ∧
    (σ'.skipB c).2.readCur c = ⟨buf, if p < buf.length then p + 1 else p⟩ := by
  have hr := skipB_result σ' c
  rw [hc] at hr
  by_cases hlt : p < buf.length
  · have heof : Cursor.eof ⟨buf, p⟩ = false := by
      simp [Cursor.eof]; omega
    have hbump : Cursor.bump ⟨buf, p⟩ = ⟨buf, p + 1⟩ := by
      simp [Cursor.bump]; omega
    rw [heof] at hr
    refine ⟨by rw [hr.1]; simp [hlt], ?_⟩
    rw [hr.2]
    simp [hbump, hlt]
  · have heof : Cursor.eof ⟨buf, p⟩ = true := by
      simp [Cursor.eof]; omega
    rw [heof] at hr
    refine ⟨by rw [hr.1]; simp [hlt], ?_⟩
    rw [hr.2]
    simp [hlt]

/-- C6.  `peek` and `peekN` (N = 2, 3, 4) never advance the calling
stream: the parent's cursor and `prev_span` cells are untouched (peek is a
pure read; the peekN variants mutate only the fork's fresh cells).  Each
`peekN` skips exactly N−1 arbitrary entries on the fork via `any()`
stepping — its answer is the token's peek at the position N−1 entries
ahead when that many entries remain, and `false` (early, without error)
otherwise — and at end-of-input `peek` and every `peekN` return
`false`. -/
theorem peekN_no_advance (σ : Store) (b : PBuf) (pred : Entry → Bool)
    (h : σ.wf b) :
    ((σ.peekB b pred).2 = σ ∧
      (σ.peek2B b pred).2.readCur b = σ.readCur b ∧
      (σ.peek2B b pred).2.readPrev b = σ.readPrev b ∧
      (σ.peek3B b pred).2.readCur b = σ.readCur b ∧
      (σ.peek3B b pred).2.readPrev b = σ.readPrev b ∧
      (σ.peek4B b pred).2.readCur b = σ.readCur b ∧
      (σ.peek4B b pred).2.readPrev b = σ.readPrev b) ∧
    ((σ.peek2B b pred).1 =
        (if (σ.readCur b).pos + 1 ≤ (σ.readCur b).buf.length then
          tokenPeek pred ⟨(σ.readCur b).buf, (σ.readCur b).pos + 1⟩ else false) ∧
      (σ.peek3B b pred).1 =
        (if (σ.readCur b).pos + 2 ≤ (σ.readCur b).buf.length then
          tokenPeek pred ⟨(σ.readCur b).buf, (σ.readCur b).pos + 2⟩ else false) ∧
      (σ.peek4B b pred).1 =
        (if (σ.readCur b).pos + 3 ≤ (σ.readCur b).buf.length then
          tokenPeek pred ⟨(σ.readCur b).buf, (σ.readCur b).pos + 3⟩ else false)) ∧
    (σ.isEmptyB b = true →
      (σ.peekB b pred).1 = false ∧ (σ.peek2B b pred).1 = false ∧
      (σ.peek3B b pred).1 = false ∧ (σ.peek4B b pred).1 = false) := by
  obtain ⟨hw1, hw2, hw3⟩ := h
  have hne1 : b.cellA ≠ (σ.fork b).2.cellA := by simp [Store.fork]; omega
  have hne2 : b.prevA ≠ (σ.fork b).2.prevA := by simp [Store.fork]; omega
  have hfp := fork_frame σ b b.cellA b.prevA hw1 hw2
  have hsp1 := skipB_frame (σ.fork b).1 (σ.fork b).2 b.cellA b.prevA hne1 hne2
  have hsp2 := skipB_frame ((σ.fork b).1.skipB (σ.fork b).2).2 (σ.fork b).2
    b.cellA b.prevA hne1 hne2
  have hsp3 := skipB_frame (((σ.fork b).1.skipB (σ.fork b).2).2.skipB (σ.fork b).2).2
    (σ.fork b).2 b.cellA b.prevA hne1 hne2
  have hparC1 : ((σ.fork b).1.skipB (σ.fork b).2).2.cursors b.cellA = σ.cursors b.cellA := by
    rw [hsp1.1, hfp.1]
  have hparS1 : ((σ.fork b).1.skipB (σ.fork b).2).2.spans b.prevA = σ.spans b.prevA := by
    rw [hsp1.2, hfp.2]
  have hparC2 : (((σ.fork b).1.skipB (σ.fork b).2).2.skipB (σ.fork b).2).2.cursors b.cellA =
      σ.cursors b.cellA := by rw [hsp2.1, hparC1]
  have hparS2 : (((σ.fork b).1.skipB (σ.fork b).2).2.skipB (σ.fork b).2).2.spans b.prevA =
      σ.spans b.prevA := by rw [hsp2.2, hparS1]
  have hparC3 : ((((σ.fork b).1.skipB (σ.fork b).2).2.skipB (σ.fork b).2).2.skipB
      (σ.fork b).2).2.cursors b.cellA = σ.cursors b.cellA := by rw [hsp3.1, hparC2]
  have hparS3 : ((((σ.fork b).1.skipB (σ.fork b).2).2.skipB (σ.fork b).2).2.skipB
      (σ.fork b).2).2.spans b.prevA = σ.spans b.prevA := by rw [hsp3.2, hparS2]
  refine ⟨⟨rfl, ?_, ?_, ?_, ?_, ?_, ?_⟩, ?_⟩
  · simp only [Store.peek2B, Store.readCur]
    split <;> exact hparC1
  · simp only [Store.peek2B, Store.readPrev]
    split <;> exact hparS1
  · simp only [Store.peek3B, Store.readCur]
    split
    · split <;> exact hparC2
    · exact hparC1
  · simp only [Store.peek3B, Store.readPrev]
    split
    · split <;> exact hparS2
    · exact hparS1
  · simp only [Store.peek4B, Store.readCur]
    split
    · split
      · split <;> exact hparC3
      · exact hparC2
    · exact hparC1
  · simp only [Store.peek4B, Store.readPrev]
    split
    · split
      · split <;> exact hparS3
      · exact hparS2
    · exact hparS1
  have hcc := fork_child_cur σ b
  rcases hcur : σ.readCur b with ⟨buf, p⟩
  have h1 := skipB_closed (σ.fork b).1 (σ.fork b).2 buf p (by rw [hcc, hcur])
  have hr2 : (σ.peek2B b pred).1 =
      (if p + 1 ≤ buf.length then tokenPeek pred ⟨buf, p + 1⟩ else false) := by
    by_cases hA : p < buf.length
    · have hs1 : ((σ.fork b).1.skipB (σ.fork b).2).1 = true := by
        rw [h1.1]; simp [hA]
      have hcur1 : ((σ.fork b).1.skipB (σ.fork b).2).2.readCur (σ.fork b).2 =
          ⟨buf, p + 1⟩ := by rw [h1.2, if_pos hA]
      simp only [Store.peek2B, hs1, hcur1, if_true]
      have hcond : p + 1 ≤ buf.length := by omega
      rw [if_pos hcond]
    · have hs1 : ((σ.fork b).1.skipB (σ.fork b).2).1 = false := by
        rw [h1.1]; simp [hA]
      simp only [Store.peek2B, hs1, Bool.false_eq_true, if_false]
      have hcond : ¬ (p + 1 ≤ buf.length) := by omega
      rw [if_neg hcond]
  have hr3 : (σ.peek3B b pred).1 =
      (if p + 2 ≤ buf.length then tokenPeek pred ⟨buf, p + 2⟩ else false) := by
    by_cases hA : p < buf.length
    · have hs1 : ((σ.fork b).1.skipB (σ.fork b).2).1 = true := by
        rw [h1.1]; simp [hA]
      have hcur1 : ((σ.fork b).1.skipB (σ.fork b).2).2.readCur (σ.fork b).2 =
          ⟨buf, p + 1⟩ := by rw [h1.2, if_pos hA]
      have h2 := skipB_closed ((σ.fork b).1.skipB (σ.fork b).2).2 (σ.fork b).2
        buf (p + 1) hcur1
      by_cases hB : p + 1 < buf.length
      · have hs2 : (((σ.fork b).1.skipB (σ.fork b).2).2.skipB (σ.fork b).2).1 = true := by
          rw [h2.1]; simp [hB]
        have hcur2 : (((σ.fork b).1.skipB (σ.fork b).2).2.skipB (σ.fork b).2).2.readCur
            (σ.fork b).2 = ⟨buf, p + 2⟩ := by rw [h2.2, if_pos hB]
        simp only [Store.peek3B, hs1, hs2, hcur2, if_true]
        have hcond : p + 2 ≤ buf.length := by omega
        rw [if_pos hcond]
      · have hs2 : (((σ.fork b).1.skipB (σ.fork b).2).2.skipB (σ.fork b).2).1 = false := by
          rw [h2.1]; simp [hB]
        simp only [Store.peek3B, hs1, hs2, Bool.false_eq_true, if_true, if_false]
        have hcond : ¬ (p + 2 ≤ buf.length) := by omega
        rw [if_neg hcond]
    · have hs1 : ((σ.fork b).1.skipB (σ.fork b).2).1 = false := by
        rw [h1.1]; simp [hA]
      simp only [Store.peek3B, hs1, Bool.false_eq_true, if_false]
      have hcond : ¬ (p + 2 ≤ buf.length) := by omega
      rw [if_neg hcond]
  have hr4 : (σ.peek4B b pred).1 =
      (if p + 3 ≤ buf.length then tokenPeek pred ⟨buf, p + 3⟩ else false) := by
    by_cases hA : p < buf.length
    · have hs1 : ((σ.fork b).1.skipB (σ.fork b).2).1 = true := by
        rw [h1.1]; simp [hA]
      have hcur1 : ((σ.fork b).1.skipB (σ.fork b).2).2.readCur (σ.fork b).2 =
          ⟨buf, p + 1⟩ := by rw [h1.2, if_pos hA]
      have h2 := skipB_closed ((σ.fork b).1.skipB (σ.fork b).2).2 (σ.fork b).2
        buf (p + 1) hcur1
      by_cases hB : p + 1 < buf.length
      · have hs2 : (((σ.fork b).1.skipB (σ.fork b).2).2.skipB (σ.fork b).2).1 = true := by
          rw [h2.1]; simp [hB]
        have hcur2 : (((σ.fork b).1.skipB (σ.fork b).2).2.skipB (σ.fork b).2).2.readCur
            (σ.fork b).2 = ⟨buf, p + 2⟩ := by rw [h2.2, if_pos hB]
        have h3 := skipB_closed (((σ.fork b).1.skipB (σ.fork b).2).2.skipB (σ.fork b).2).2
          (σ.fork b).2 buf (p + 2) hcur2
        by_cases hC : p + 2 < buf.length
        · have hs3 : ((((σ.fork b).1.skipB (σ.fork b).2).2.skipB (σ.fork b).2).2.skipB
              (σ.fork b).2).1 = true := by rw [h3.1]; simp [hC]
          have hcur3 : ((((σ.fork b).1.skipB (σ.fork b).2).2.skipB (σ.fork b).2).2.skipB
              (σ.fork b).2).2.readCur (σ.fork b).2 = ⟨buf, p + 3⟩ := by
            rw [h3.2, if_pos hC]
          simp only [Store.peek4B, hs1, hs2, hs3, hcur3, if_true]
          have hcond : p + 3 ≤ buf.length := by omega
          rw [if_pos hcond]
        · have hs3 : ((((σ.fork b).1.skipB (σ.fork b).2).2.skipB (σ.fork b).2).2.skipB
              (σ.fork b).2).1 = false := by rw [h3.1]; simp [hC]
          simp only [Store.peek4B, hs1, hs2, hs3, Bool.false_eq_true, if_true, if_false]
          have hcond : ¬ (p + 3 ≤ buf.length) := by omega
          rw [if_neg hcond]
      · have hs2 : (((σ.fork b).1.skipB (σ.fork b).2).2.skipB (σ.fork b).2).1 = false := by
          rw [h2.1]; simp [hB]
        simp only [Store.peek4B, hs1, hs2, Bool.false_eq_true, if_true, if_false]
        have hcond : ¬ (p + 3 ≤ buf.length) := by omega
        rw [if_neg hcond]
    · have hs1 : ((σ.fork b).1.skipB (σ.fork b).2).1 = false := by
        rw [h1.1]; simp [hA]
      simp only [Store.peek4B, hs1, Bool.false_eq_true, if_false]
      have hcond : ¬ (p + 3 ≤ buf.length) := by omega
      rw [if_neg hcond]
  refine ⟨⟨hr2, hr3, hr4⟩, fun hemp => ?_⟩
  have h0 : (σ.readCur b).eof = true := hemp
  rw [hcur] at h0
  have hle : buf.length ≤ p := by simpa [Cursor.eof] using h0
  refine ⟨?_, ?_, ?_, ?_⟩
  · show tokenPeek pred (σ.readCur b) = false
    rw [hcur]
    simp [tokenPeek, Cursor.entryAt, List.getElem?_eq_none hle]
  · have hcond : ¬ (p + 1 ≤ buf.length) := by omega
    rw [hr2, if_neg hcond]
  · have hcond : ¬ (p + 2 ≤ buf.length) := by omega
    rw [hr3, if_neg hcond]
  · have hcond : ¬ (p + 3 ≤ buf.length) := by omega
    rw [hr4, if_neg hcond]

/-- Witness for C6: on a concrete store and a literal-testing token
predicate, `peek2` leaves the parent's cursor unchanged. -/
theorem peekN_no_advance_witness :
    sampleStore.wf samplePB ∧
    (sampleStore.peek2B samplePB
        (fun e => match e with | .literal _ => true | .punct _ _ => false)).2.readCur
      samplePB = sampleStore.readCur samplePB :=
  ⟨⟨by decide, by decide, by decide⟩,
    (peekN_no_advance sampleStore samplePB
      (fun e => match e with | .literal _ => true | .punct _ _ => false)
      ⟨by decide, by decide, by decide⟩).1.2.1⟩

/-- C10.  `analyze` reports the "Cannot divide by 0" diagnostic iff the
tree contains a `Div` node whose right child is directly an integer
literal with value `0`; in particular the parse of "6 / (0)", whose zero
is wrapped in a `Group` node, yields no diagnostic. -/
theorem analyze_flags_direct_div_zero :
    (∀ a : Ast, (∃ d ∈ analyzeAst a, d.message = "Cannot divide by 0") ↔
      (∃ sp l zsp, SubtreeOf (.op sp .div l (.int zsp 0)) a)) ∧
    (parseTop "6 / (0)").1.map analyzeAst = .ok [] := by
  refine ⟨?_, rfl⟩
  intro a
  induction a with
  | int sp v =>
    constructor
    · rintro ⟨d, hd, _⟩
      exact absurd hd (List.not_mem_nil d)
    · rintro ⟨sp', l, zsp, hsub⟩
      cases hsub
  | op sp o l r ihl ihr =>
    constructor
    · rintro ⟨d, hd, hmsg⟩
      simp only [analyzeAst, List.mem_append] at hd
      rcases hd with (hd | hd) | hd
      · obtain ⟨sp', l', zsp, hsub⟩ := ihl.mp ⟨d, hd, hmsg⟩
        exact ⟨sp', l', zsp, .opLeft sp o r hsub⟩
      · obtain ⟨sp', l', zsp, hsub⟩ := ihr.mp ⟨d, hd, hmsg⟩
        exact ⟨sp', l', zsp, .opRight sp o l hsub⟩
      · rcases o with _ | _ | _ | _
        · exact absurd hd (by simp)
        · exact absurd hd (by simp)
        · exact absurd hd (by simp)
        · rcases r with ⟨zsp2, v⟩ | ⟨rsp, ro, rl, rr⟩ | ⟨gsp, ge⟩
          · rcases v with _ | v'
            · exact ⟨sp, l, zsp2, .refl _⟩
            · exact absurd hd (by simp)
          · exact absurd hd (by simp)
          · exact absurd hd (by simp)
    · rintro ⟨sp', l', zsp, hsub⟩
      cases hsub with
      | refl =>
        refine ⟨divZeroDiag zsp, ?_, rfl⟩
        simp [analyzeAst]
      | opLeft sp o r hsub' =>
        obtain ⟨d, hd, hmsg⟩ := ihl.mpr ⟨sp', l', zsp, hsub'⟩
        exact ⟨d, by simp only [analyzeAst, List.mem_append]; exact Or.inl (Or.inl hd), hmsg⟩
      | opRight sp o l hsub' =>
        obtain ⟨d, hd, hmsg⟩ := ihr.mpr ⟨sp', l', zsp, hsub'⟩
        exact ⟨d, by simp only [analyzeAst, List.mem_append]; exact Or.inl (Or.inr hd), hmsg⟩
  | group sp e ih =>
    constructor
    · rintro ⟨d, hd, hmsg⟩
      obtain ⟨sp', l', zsp, hsub⟩ := ih.mp ⟨d, hd, hmsg⟩
      exact ⟨sp', l', zsp, .group sp hsub⟩
    · rintro ⟨sp', l', zsp, hsub⟩
      cases hsub with
      | group sp hsub' =>
        obtain ⟨d, hd, hmsg⟩ := ih.mpr ⟨sp', l', zsp, hsub'⟩
        exact ⟨d, hd, hmsg⟩
